import Mathlib

/-!
Verification of `bot.py` (kiruwfh/ai-helper), a Telegram bot that captures a
web page (inlining stylesheets and images), extracts text, and answers
questions about the page through a model call with a bounded conversation
history.

Python strings are modelled as `List Char` (their sequence of code points);
byte strings as `List Nat`.  External library calls (`urljoin`,
`base64.b64encode`, `mimetypes.guess_type`, the HTTP client, the OCR engine)
are modelled as explicit function parameters; everything else is translated
directly from the source.
-/

/-- Python whitespace characters stripped by `str.strip()` (ASCII subset). -/
def isPySpace (c : Char) : Bool :=
  c = ' ' ∨ c = '\t' ∨ c = '\n' ∨ c = '\x0d' ∨ c = '\x0b' ∨ c = '\x0c'

/-- Python `str.strip()`: remove leading and trailing whitespace. -/
def pyStrip (s : List Char) : List Char :=
  ((s.dropWhile isPySpace).reverse.dropWhile isPySpace).reverse

/-- Python truthiness of an optional string: `None` and `""` are falsy. -/
def pyTruthy : Option (List Char) → Bool
  | none => false
  | some s => s ≠ []

/-- Python `a or b` on optional strings: keep `a` when truthy, else `b`. -/
def pyOr (a b : Option (List Char)) : Option (List Char) :=
  if pyTruthy a then a else b

/-- Python slice `s[:k]` for an `int` bound `k` (negative counts from the
end, clamped at zero). -/
def pySliceTo (k : Int) (s : List Char) : List Char :=
  if 0 ≤ k then s.take k.toNat
  else s.take (s.length - min s.length k.natAbs)

/-- Source constant `MAX_TEXT_CONTEXT = 15_000`. -/
def MAX_TEXT_CONTEXT : Int := 15000

/-- Source constant `MAX_HTML_CONTEXT = 10_000`. -/
def MAX_HTML_CONTEXT : Int := 10000

/-- Source constant `MAX_TELEGRAM_MESSAGE = 4_096`. -/
def MAX_TELEGRAM_MESSAGE : Nat := 4096

/-- Source constant `MAX_MINIMAX_HISTORY = 8` (includes the system message). -/
def MAX_MINIMAX_HISTORY : Nat := 8

/-- Source constant `MAX_ASSET_SIZE = 8 * 1024 * 1024`. -/
def MAX_ASSET_SIZE : Int := 8 * 1024 * 1024

/-- The marker `"\n…(truncated)…"` appended by `truncate_content`. -/
def truncMarker : List Char := "\n…(truncated)…".data

/-- `truncate_content(content, limit)`: return `content` unchanged when its
length is at most `limit`, else the slice `content[:limit]` followed by the
truncation marker.  `limit` is a Python `int`, so it is modelled as `Int`
with Python slice semantics. -/
def truncate_content (content : List Char) (limit : Int) : List Char :=
  if (content.length : Int) ≤ limit then content
  else pySliceTo limit content ++ truncMarker

/-- Label prefixing the alt text in `build_image_description`. -/
def altLabel : List Char := "Подпись автора: ".data

/-- Label prefixing the OCR text in `build_image_description`. -/
def ocrLabel : List Char := "Распознанный текст: ".data

/-- The fallback sentence of `build_image_description`. -/
def noDescription : List Char :=
  "Описание недоступно: распознать содержимое автоматически не удалось.".data

/-- `build_image_description(alt_text, ocr_text)`: collect the labelled,
stripped alt text (when truthy) then the labelled, stripped OCR text (when
non-empty); fall back to a fixed sentence when both are absent; join the
parts with a newline. -/
def build_image_description (alt_text : Option (List Char)) (ocr_text : List Char) :
    List Char :=
  let parts : List (List Char) :=
    (if pyTruthy alt_text then [altLabel ++ pyStrip (alt_text.getD [])] else []) ++
    (if ocr_text ≠ [] then [ocrLabel ++ pyStrip ocr_text] else [])
  let parts := if parts = [] then [noDescription] else parts
  (parts.intersperse ['\n']).flatten

/-- Claim C3 (corrected): `truncate_content` is idempotent for every
nonnegative limit: when the input is short it is returned unchanged, and a
truncated result of length `limit + |marker|` truncates again to itself. -/
theorem truncate_content_idempotent (s : List Char) (L : Int) (hL : 0 ≤ L) :
    truncate_content (truncate_content s L) L = truncate_content s L := by
  unfold truncate_content
  by_cases h : (s.length : Int) ≤ L
  · simp [h]
  · simp only [h, if_false]
    have hlen : (pySliceTo L s).length = L.toNat := by
      unfold pySliceTo
      simp only [hL, if_true, List.length_take]
      omega
    have hlong : ¬ (((pySliceTo L s ++ truncMarker).length : Int) ≤ L) := by
      simp only [List.length_append, hlen]
      have : 0 < truncMarker.length := by decide
      push_cast
      omega
    simp only [hlong, if_false]
    congr 1
    unfold pySliceTo
    simp only [hL, if_true]
    have h1 : (List.take L.toNat s).length = L.toNat := by
      simp only [List.length_take]
      omega
    rw [List.take_append_eq_append_take, List.take_take, h1]
    simp

/-- Witness for C3's amended theorem at a concrete input. -/
theorem truncate_content_idempotent_witness :
    (0 : Int) ≤ 3 ∧
      truncate_content (truncate_content "abcdef".data 3) 3 =
        truncate_content "abcdef".data 3 :=
  ⟨by decide, truncate_content_idempotent "abcdef".data 3 (by decide)⟩

/-- Claim C3 counterexample: with the Python slice semantics of a negative
`int` limit, truncation is not idempotent (`truncate_content("", -1)` is the
bare marker, which truncates again to something longer). -/
theorem truncate_content_not_idempotent_neg :
    truncate_content (truncate_content [] (-1)) (-1) ≠ truncate_content [] (-1) := by
  decide

/-- Claim C7: the composed image description contains the labelled stripped
alt text when the alt text is present (truthy), then the labelled stripped
OCR text when non-empty, alt part before OCR part, and is exactly the fixed
fallback sentence when neither part is included. -/
theorem build_image_description_spec (alt_text : Option (List Char))
    (ocr_text : List Char) :
    build_image_description alt_text ocr_text =
      if pyTruthy alt_text then
        (if ocr_text ≠ [] then
          altLabel ++ pyStrip (alt_text.getD []) ++ '\n' ::
            (ocrLabel ++ pyStrip ocr_text)
        else altLabel ++ pyStrip (alt_text.getD []))
      else
        (if ocr_text ≠ [] then ocrLabel ++ pyStrip ocr_text
        else noDescription) := by
  unfold build_image_description
  by_cases ha : pyTruthy alt_text <;> by_cases ho : ocr_text ≠ [] <;>
    simp [ha, ho, List.intersperse]

/-- A conversation message: a dict with a `role`, a `content`, and optional
`reasoning_details`. -/
structure Msg where
  role : List Char
  content : List Char
  reasoningDetails : Option (List Char) := none
deriving DecidableEq

/-- The role string of the system message. -/
def systemRole : List Char := "system".data

/-- Source constant `SYSTEM_PROMPT`. -/
def SYSTEM_PROMPT : List Char :=
  ("Ты — помощник, который отвечает на вопросы по содержимому веб-страниц. " ++
   "Используй предоставленные HTML и текст, чтобы отвечать максимально точно. " ++
   "Если данных недостаточно, честно сообщи об этом.").data

/-- The seeded system message. -/
def systemMsg : Msg := { role := systemRole, content := SYSTEM_PROMPT }

/-- The per-session mutable state (`context.user_data`): the captured page
and the stored Minimax conversation history (absent until first stored). -/
structure UserState where
  lastAssetsTag : Option Nat
  minimaxMessages : Option (List Msg)
deriving DecidableEq

/-- `_ensure_system_message(messages)`: return `messages` unchanged when its
first entry has role `"system"`, else prepend the system message. -/
def ensure_system_message (messages : List Msg) : List Msg :=
  match messages with
  | m :: _ => if m.role = systemRole then messages else systemMsg :: messages
  | [] => systemMsg :: messages

/-- The trimming step of `_store_minimax_exchange`: when the history exceeds
`MAX_MINIMAX_HISTORY`, keep index 0 and the most recent
`MAX_MINIMAX_HISTORY - 1` entries of the rest (`recent[-(H-1):]`). -/
def trimHistory (history : List Msg) : List Msg :=
  if history.length > MAX_MINIMAX_HISTORY then
    match history with
    | [] => []
    | x :: recent => x :: recent.drop (recent.length - (MAX_MINIMAX_HISTORY - 1))
  else history

/-- `_store_minimax_exchange(user_state, user_message, assistant_message)`:
take the cached history (empty when absent), re-assert the system message,
append both messages, trim, and store back. -/
def store_minimax_exchange (st : UserState) (userMessage assistantMessage : Msg) :
    UserState :=
  { st with
      minimaxMessages := some (trimHistory
        (ensure_system_message (st.minimaxMessages.getD []) ++
          [userMessage, assistantMessage])) }

lemma ensure_system_message_head (ms : List Msg) :
    ∃ m rest, ensure_system_message ms = m :: rest ∧ m.role = systemRole := by
  unfold ensure_system_message
  cases ms with
  | nil => exact ⟨systemMsg, [], rfl, rfl⟩
  | cons m rest =>
    by_cases h : m.role = systemRole
    · exact ⟨m, rest, by simp [h], h⟩
    · exact ⟨systemMsg, m :: rest, by simp [h], rfl⟩

lemma trimHistory_cons (x : Msg) (rest : List Msg) :
    trimHistory (x :: rest) =
      if (x :: rest).length > MAX_MINIMAX_HISTORY then
        x :: rest.drop (rest.length - (MAX_MINIMAX_HISTORY - 1))
      else x :: rest := by
  by_cases h : (x :: rest).length > MAX_MINIMAX_HISTORY
  · rw [if_pos h]
    unfold trimHistory
    rw [if_pos h]
  · rw [if_neg h]
    unfold trimHistory
    rw [if_neg h]

/-- After one `_store_minimax_exchange`, the stored history is present,
bounded by `MAX_MINIMAX_HISTORY`, and headed by a system-role message. -/
lemma store_step_invariant (st : UserState) (u a : Msg) :
    ∃ h, (store_minimax_exchange st u a).minimaxMessages = some h ∧
      h.length ≤ MAX_MINIMAX_HISTORY ∧
      ∃ m rest, h = m :: rest ∧ m.role = systemRole := by
  obtain ⟨m, rest, hms, hrole⟩ := ensure_system_message_head (st.minimaxMessages.getD [])
  unfold store_minimax_exchange
  rw [hms]
  have hsplit : m :: rest ++ [u, a] = m :: (rest ++ [u, a]) := by simp
  rw [hsplit, trimHistory_cons]
  by_cases h : (m :: (rest ++ [u, a])).length > MAX_MINIMAX_HISTORY
  · rw [if_pos h]
    refine ⟨_, rfl, ?_, m, _, rfl, hrole⟩
    simp only [List.length_cons, List.length_append, List.length_drop,
      List.length_nil, MAX_MINIMAX_HISTORY] at h ⊢
    omega
  · rw [if_neg h]
    refine ⟨_, rfl, ?_, m, _, rfl, hrole⟩
    simp only [List.length_cons] at h ⊢
    omega

lemma store_fold_invariant (ps : List (Msg × Msg)) (st : UserState) (u a : Msg) :
    ∃ h, (ps.foldl (fun s p => store_minimax_exchange s p.1 p.2)
        (store_minimax_exchange st u a)).minimaxMessages = some h ∧
      h.length ≤ MAX_MINIMAX_HISTORY ∧
      ∃ m rest, h = m :: rest ∧ m.role = systemRole := by
  induction ps generalizing st u a with
  | nil => simpa using store_step_invariant st u a
  | cons q qs ih =>
    simp only [List.foldl_cons]
    exact ih (store_minimax_exchange st u a) q.1 q.2

/-- Claim C1: starting from any stored history (including absent), after any
non-empty sequence of `_store_minimax_exchange` calls the stored history has
at most `MAX_MINIMAX_HISTORY = 8` entries and its first entry has role
`"system"`; moreover each call stores exactly the trimmed
`_ensure_system_message(history) ++ [user, assistant]`, whose trimming keeps
the head (system) message and a suffix (the most recent entries) of the
rest, of length `min (length rest) 7` — so the oldest non-system entries are
dropped first and the most recent `H - 1` are kept. -/
theorem store_minimax_exchange_history_invariant
    (st : UserState) (exchanges : List (Msg × Msg)) (hne : exchanges ≠ []) :
    (∃ h, (exchanges.foldl (fun s p => store_minimax_exchange s p.1 p.2)
          st).minimaxMessages = some h ∧
      h.length ≤ MAX_MINIMAX_HISTORY ∧
      ∃ m rest, h = m :: rest ∧ m.role = systemRole) ∧
    (∀ (stored : List Msg) (u a : Msg),
      ∀ m rest, ensure_system_message stored ++ [u, a] = m :: rest →
        (store_minimax_exchange ⟨none, some stored⟩ u a).minimaxMessages
            = some (trimHistory (m :: rest)) ∧
        (trimHistory (m :: rest)).head? = some m ∧
        (trimHistory (m :: rest)).tail <:+ rest ∧
        (trimHistory (m :: rest)).tail.length
            = min rest.length (MAX_MINIMAX_HISTORY - 1)) := by
  constructor
  · cases exchanges with
    | nil => exact absurd rfl hne
    | cons p ps => exact store_fold_invariant ps st p.1 p.2
  · intro stored u a m rest hsplit
    refine ⟨?_, ?_, ?_, ?_⟩
    · unfold store_minimax_exchange
      simp only [Option.getD_some]
      rw [hsplit]
    · rw [trimHistory_cons]
      by_cases h : (m :: rest).length > MAX_MINIMAX_HISTORY
      · rw [if_pos h]; rfl
      · rw [if_neg h]; rfl
    · rw [trimHistory_cons]
      by_cases h : (m :: rest).length > MAX_MINIMAX_HISTORY
      · rw [if_pos h]
        exact List.drop_suffix _ _
      · rw [if_neg h]
        exact List.suffix_refl rest
    · rw [trimHistory_cons]
      have hlen : rest.length ≥ 2 := by
        have := congrArg List.length hsplit
        simp only [List.length_append, List.length_cons] at this
        have h0 : ensure_system_message stored ≠ [] := by
          unfold ensure_system_message
          cases stored with
          | nil => simp
          | cons x xs => by_cases hx : x.role = systemRole <;> simp [hx]
        have h1 : 1 ≤ (ensure_system_message stored).length :=
          List.length_pos.mpr h0
        omega
      by_cases h : (m :: rest).length > MAX_MINIMAX_HISTORY
      · rw [if_pos h]
        simp only [List.tail_cons, List.length_drop, MAX_MINIMAX_HISTORY] at h ⊢
        simp only [List.length_cons] at h
        omega
      · rw [if_neg h]
        simp only [List.tail_cons, MAX_MINIMAX_HISTORY] at h ⊢
        simp only [List.length_cons] at h
        omega

/-- Witness for C1 at a concrete input: one exchange recorded from an empty
session. -/
theorem store_minimax_exchange_history_invariant_witness :
    ([(({role := "user".data, content := "q".data} : Msg),
       ({role := "assistant".data, content := "a".data} : Msg))] ≠
        ([] : List (Msg × Msg))) ∧
    (∃ h, (([(({role := "user".data, content := "q".data} : Msg),
       ({role := "assistant".data, content := "a".data} : Msg))]).foldl
          (fun s p => store_minimax_exchange s p.1 p.2)
          ⟨none, none⟩).minimaxMessages = some h ∧
      h.length ≤ MAX_MINIMAX_HISTORY ∧
      ∃ m rest, h = m :: rest ∧ m.role = systemRole) :=
  ⟨by simp,
   (store_minimax_exchange_history_invariant ⟨none, none⟩ _ (by simp)).1⟩

/-- Accumulating digit parser for Python `int()`: digits, with single
underscores allowed between digits. -/
def digitsCore (acc : Nat) : List Char → Option Nat
  | [] => some acc
  | '_' :: c :: rest =>
    if c.isDigit then digitsCore (acc * 10 + (c.toNat - 48)) rest else none
  | c :: rest =>
    if c.isDigit then digitsCore (acc * 10 + (c.toNat - 48)) rest else none

/-- A non-empty digit run (first character must be a digit). -/
def digitsStart : List Char → Option Nat
  | [] => none
  | c :: rest => if c.isDigit then digitsCore (c.toNat - 48) rest else none

/-- Python `int(s)` on a decimal string: strip whitespace, optional sign,
digits (underscores between digits); `none` models the
`TypeError`/`ValueError` the source catches. -/
def pyInt (s : List Char) : Option Int :=
  match pyStrip s with
  | '+' :: rest => (digitsStart rest).map (fun n => (n : Int))
  | '-' :: rest => (digitsStart rest).map (fun n => -(n : Int))
  | rest => (digitsStart rest).map (fun n => (n : Int))

/-- The parts of an `httpx` response the fetchers inspect. -/
structure HttpResponse where
  ok : Bool
  contentLength : Option (List Char)
  contentType : Option (List Char)
  encoding : Option (List Char)
  content : List Nat
  text : List Char
deriving DecidableEq

/-- Failures a fetch can raise: a network error from the client, a non-2xx
status (`raise_for_status`), or the 8 MiB size `ValueError`. -/
inductive FetchError where
  | network
  | httpStatus
  | tooLarge
deriving DecidableEq

/-- The HTTP client, as a deterministic map from URL to response or error. -/
def HttpClient : Type := List Char → Except FetchError HttpResponse

/-- The declared-size check shared by both fetchers: when a `Content-Length`
header is present, truthy, and parses as an `int` above `MAX_ASSET_SIZE`,
raise the size error. -/
def checkContentLength (r : HttpResponse) : Except FetchError Unit :=
  match r.contentLength with
  | some cl =>
    if cl ≠ [] then
      match pyInt cl with
      | some length =>
        if length > MAX_ASSET_SIZE then Except.error FetchError.tooLarge
        else Except.ok ()
      | none => Except.ok ()
    else Except.ok ()
  | none => Except.ok ()

/-- Default content type of `fetch_text_asset`. -/
def textPlain : List Char := "text/plain".data

/-- Default encoding of `fetch_text_asset`. -/
def utf8Name : List Char := "utf-8".data

/-- Generic binary content-type fallback of `fetch_binary_asset`. -/
def octetStream : List Char := "application/octet-stream".data

/-- `response.encoding or "utf-8"`: the encoding falls back to UTF-8 when
absent or empty. -/
def resolveEncoding (enc : Option (List Char)) : List Char :=
  match enc with
  | some e => if e ≠ [] then e else utf8Name
  | none => utf8Name

/-- `fetch_text_asset(client, url)`: GET, raise for status, check the
declared length, resolve content type (default `text/plain`) and encoding
(default `utf-8`), then check the received byte count; returns
`(text, content_type, encoding)`. -/
def fetch_text_asset (client : HttpClient) (url : List Char) :
    Except FetchError (List Char × List Char × List Char) :=
  match client url with
  | Except.error e => Except.error e
  | Except.ok response =>
    if ¬ response.ok then Except.error FetchError.httpStatus
    else match checkContentLength response with
    | Except.error e => Except.error e
    | Except.ok _ =>
      let contentType := response.contentType.getD textPlain
      let encoding := resolveEncoding response.encoding
      if (response.content.length : Int) > MAX_ASSET_SIZE then
        Except.error FetchError.tooLarge
      else Except.ok (response.text, contentType, encoding)

/-- `fetch_binary_asset(client, url)`: GET, raise for status, check the
declared length, check the received byte count, then resolve the MIME type
(header before `;`, else a guess from the URL, else the generic fallback);
returns `(data, content_type)`.  `guess` models `mimetypes.guess_type`. -/
def fetch_binary_asset (client : HttpClient) (guess : List Char → Option (List Char))
    (url : List Char) : Except FetchError (List Nat × List Char) :=
  match client url with
  | Except.error e => Except.error e
  | Except.ok response =>
    if ¬ response.ok then Except.error FetchError.httpStatus
    else match checkContentLength response with
    | Except.error e => Except.error e
    | Except.ok _ =>
      if (response.content.length : Int) > MAX_ASSET_SIZE then
        Except.error FetchError.tooLarge
      else
        let contentType :=
          match response.contentType with
          | some ct =>
            if ct ≠ [] then ct.takeWhile (fun c => c ≠ ';')
            else match guess url with
              | some g => if g ≠ [] then g else octetStream
              | none => octetStream
          | none =>
            match guess url with
            | some g => if g ≠ [] then g else octetStream
            | none => octetStream
        Except.ok (response.content, contentType)

/-- A response declares a too-large size: the `Content-Length` header is
present, non-empty, parseable, and above `MAX_ASSET_SIZE`. -/
def declaredTooLarge (r : HttpResponse) : Prop :=
  ∃ cl n, r.contentLength = some cl ∧ cl ≠ [] ∧ pyInt cl = some n ∧
    n > MAX_ASSET_SIZE

lemma checkContentLength_of_declared {r : HttpResponse} (h : declaredTooLarge r) :
    checkContentLength r = Except.error FetchError.tooLarge := by
  obtain ⟨cl, n, hcl, hne, hpy, hgt⟩ := h
  unfold checkContentLength
  rw [hcl]
  simp [hne, hpy, hgt]

lemma checkContentLength_error {r : HttpResponse} {e : FetchError}
    (h : checkContentLength r = Except.error e) : e = FetchError.tooLarge := by
  unfold checkContentLength at h
  repeat split at h
  all_goals simp_all

/-- Claim C4: for both asset fetchers (on a status-OK response), a declared
`Content-Length` above 8 MiB fails with the size error for every possible
body (the outcome does not depend on the received bytes), and independently
an actually-received byte count above 8 MiB fails with the size error;
either condition alone forces the failure. -/
theorem fetch_asset_size_limit (r : HttpResponse) (hok : r.ok = true) :
    (declaredTooLarge r →
      (∀ (guess : List Char → Option (List Char)) (url : List Char)
          (body : List Nat),
        fetch_binary_asset (fun _ => Except.ok { r with content := body })
            guess url = Except.error FetchError.tooLarge) ∧
      (∀ (url : List Char) (body : List Nat) (txt : List Char),
        fetch_text_asset (fun _ => Except.ok { r with content := body, text := txt })
            url = Except.error FetchError.tooLarge)) ∧
    ((r.content.length : Int) > MAX_ASSET_SIZE →
      (∀ (guess : List Char → Option (List Char)) (url : List Char),
        fetch_binary_asset (fun _ => Except.ok r) guess url
          = Except.error FetchError.tooLarge) ∧
      (∀ url : List Char,
        fetch_text_asset (fun _ => Except.ok r) url
          = Except.error FetchError.tooLarge)) := by
  constructor
  · intro hdecl
    have hdecl' : ∀ body txt,
        declaredTooLarge { r with content := body, text := txt } := by
      intro body txt
      obtain ⟨cl, n, hcl, rest⟩ := hdecl
      exact ⟨cl, n, hcl, rest⟩
    constructor
    · intro guess url body
      have hchk := checkContentLength_of_declared (hdecl' body r.text)
      simp only [hok] at hchk
      simp [fetch_binary_asset, hok, hchk]
    · intro url body txt
      have hchk := checkContentLength_of_declared (hdecl' body txt)
      simp only [hok] at hchk
      simp [fetch_text_asset, hok, hchk]
  · intro hbig
    constructor
    · intro guess url
      cases hchk : checkContentLength r with
      | error e =>
        rw [checkContentLength_error hchk] at hchk
        simp [fetch_binary_asset, hok, hchk]
      | ok u => simp [fetch_binary_asset, hok, hchk, hbig]
    · intro url
      cases hchk : checkContentLength r with
      | error e =>
        rw [checkContentLength_error hchk] at hchk
        simp [fetch_text_asset, hok, hchk]
      | ok u => simp [fetch_text_asset, hok, hchk, hbig]

/-- A concrete response declaring a 9 MiB `Content-Length` with an empty
body. -/
def sampleBigResponse : HttpResponse where
  ok := true
  contentLength := some ("9437184".data)
  contentType := none
  encoding := none
  content := []
  text := []

/-- Witness for C4 at a concrete response: declared length 9 MiB
(`9437184`), empty body. -/
theorem fetch_asset_size_limit_witness :
    sampleBigResponse.ok = true ∧
    fetch_binary_asset (fun _ => Except.ok sampleBigResponse)
        (fun _ => none) [] = Except.error FetchError.tooLarge := by
  have hd : declaredTooLarge sampleBigResponse := by
    refine ⟨"9437184".data, 9437184, rfl, by decide, by decide, by decide⟩
  have happ := ((fetch_asset_size_limit sampleBigResponse rfl).1 hd).1
    (fun _ => none) [] []
  exact ⟨rfl, by simpa [sampleBigResponse] using happ⟩

/-- A node of the parsed document, as far as `inline_stylesheets` looks at
it: a `<link>` with its `rel` tokens and `href`, an inline `<style>` block
with its `data-source`/`data-encoding` attributes, or anything else. -/
inductive SNode where
  | link (rel : List (List Char)) (href : Option (List Char))
  | styleTag (content : List Char) (dataSource : List Char)
      (dataEncoding : Option (List Char))
  | other (tag : Nat)
deriving DecidableEq

/-- `any(r.lower() == "stylesheet" for r in rel)`. -/
def isStylesheetRel (rel : List (List Char)) : Bool :=
  rel.any (fun r => r.map Char.toLower = "stylesheet".data)

/-- The body of the `inline_stylesheets` loop for one element: stylesheet
links with a truthy `href` are fetched; on success the link is replaced by a
style block carrying `data-source` and (when the encoding is truthy)
`data-encoding`; on failure, or for any other element, the node is left
untouched. -/
def processLinkTag (client : HttpClient) (resolve : List Char → List Char)
    (node : SNode) : SNode :=
  match node with
  | SNode.link rel href =>
    if ¬ isStylesheetRel rel then node
    else
      match href with
      | none => node
      | some h =>
        if h = [] then node
        else
          match fetch_text_asset client (resolve h) with
          | Except.error _ => node
          | Except.ok (content, _ctype, encoding) =>
            SNode.styleTag content (resolve h)
              (if encoding ≠ [] then some encoding else none)
  | n => n

/-- `inline_stylesheets(soup, client, base_url)`: rewrite every element of
the document as above (`urljoin base_url` is the `resolve` parameter). -/
def inline_stylesheets (client : HttpClient) (resolve : List Char → List Char)
    (nodes : List SNode) : List SNode :=
  nodes.map (processLinkTag client resolve)

lemma resolveEncoding_ne_nil (enc : Option (List Char)) :
    resolveEncoding enc ≠ [] := by
  unfold resolveEncoding
  cases enc with
  | none => simp [utf8Name]
  | some e =>
    by_cases he : e ≠ []
    · simp [he]
    · simp [he, utf8Name]

lemma fetch_text_asset_encoding_ne_nil {client : HttpClient} {url t c e}
    (h : fetch_text_asset client url = Except.ok (t, c, e)) : e ≠ [] := by
  unfold fetch_text_asset at h
  cases hcl : client url with
  | error e2 =>
    simp only [hcl] at h
    cases h
  | ok r =>
    simp only [hcl] at h
    by_cases hok : (¬ r.ok = true)
    · rw [if_pos hok] at h
      cases h
    · rw [if_neg hok] at h
      cases hchk : checkContentLength r with
      | error e3 =>
        simp only [hchk] at h
        cases h
      | ok u =>
        simp only [hchk] at h
        by_cases hbig : ((r.content.length : Int) > MAX_ASSET_SIZE)
        · rw [if_pos hbig] at h
          cases h
        · rw [if_neg hbig] at h
          simp only [Except.ok.injEq, Prod.mk.injEq] at h
          obtain ⟨h1, h2, h3⟩ := h
          rw [← h3]
          exact resolveEncoding_ne_nil _

/-- Claim C6: `inline_stylesheets` never fails and never drops elements
(the output has the same length, element for element); a stylesheet link
whose fetch fails is left untouched in place, and a stylesheet link whose
fetch succeeds is replaced in place by a style block carrying the fetched
content, the resolved URL as `data-source`, and a (non-empty) encoding as
`data-encoding`. -/
theorem inline_stylesheets_spec (client : HttpClient)
    (resolve : List Char → List Char) (nodes : List SNode) :
    (inline_stylesheets client resolve nodes).length = nodes.length ∧
    (∀ (i : Nat), i < nodes.length →
      ∀ (rel : List (List Char)) (href : List Char),
        nodes.getD i (SNode.other 0) = SNode.link rel (some href) →
        isStylesheetRel rel → href ≠ [] →
        ((∀ e, fetch_text_asset client (resolve href) = Except.error e →
          (inline_stylesheets client resolve nodes).getD i (SNode.other 0)
            = nodes.getD i (SNode.other 0)) ∧
        (∀ content ctype enc,
          fetch_text_asset client (resolve href) = Except.ok (content, ctype, enc) →
          (inline_stylesheets client resolve nodes).getD i (SNode.other 0)
              = SNode.styleTag content (resolve href) (some enc) ∧
            enc ≠ []))) := by
  constructor
  · simp [inline_stylesheets]
  · intro i hi rel href hnode hrel hhref
    have hmap : (inline_stylesheets client resolve nodes).getD i (SNode.other 0)
        = processLinkTag client resolve (nodes.getD i (SNode.other 0)) := by
      unfold inline_stylesheets
      rw [List.getD_eq_getElem?_getD, List.getD_eq_getElem?_getD,
        List.getElem?_map]
      rw [List.getElem?_eq_getElem hi]
      rfl
    constructor
    · intro e herr
      rw [hmap, hnode]
      unfold processLinkTag
      simp [hrel, hhref, herr]
    · intro content ctype enc hok
      have hne := fetch_text_asset_encoding_ne_nil hok
      refine ⟨?_, hne⟩
      rw [hmap, hnode]
      unfold processLinkTag
      simp [hrel, hhref, hok, hne]

/-- A concrete stylesheet link element. -/
def sampleLink : SNode := SNode.link ["stylesheet".data] (some ("s.css".data))

/-- Witness for C6 at a concrete input: a document with one stylesheet link
whose fetch fails over a client that always errors; the element is left
untouched. -/
theorem inline_stylesheets_spec_witness :
    (0 < ([sampleLink] : List SNode).length) ∧
    (inline_stylesheets (fun _ => Except.error FetchError.network) id
        [sampleLink]).getD 0 (SNode.other 0)
      = ([sampleLink] : List SNode).getD 0 (SNode.other 0) := by
  refine ⟨by decide, ?_⟩
  have h := ((inline_stylesheets_spec (fun _ => Except.error FetchError.network)
      id [sampleLink]).2 0 (by decide) ["stylesheet".data] ("s.css".data)
      rfl (by decide) (by decide)).1 FetchError.network
  exact h (by rfl)

/-- One `<img>` element as `inline_images` sees it. -/
structure ImgTag where
  src : Option (List Char)
  alt : Option (List Char)
  srcset : Option (List Char) := none
  dataSource : Option (List Char) := none
deriving DecidableEq

/-- The `ImageSummary` dataclass. -/
structure ImageSummary where
  source_url : List Char
  alt_text : Option (List Char)
  ocr_text : Option (List Char)
  description : List Char
deriving DecidableEq

/-- The collaborators `inline_images` uses: the HTTP client, `urljoin`
against the base URL, `mimetypes.guess_type`, `base64.b64encode`, and
`extract_text_from_image` (total: empty string on OCR failure or
unavailability). -/
structure ImgEnv where
  client : HttpClient
  resolve : List Char → List Char
  guess : List Char → Option (List Char)
  b64 : List Nat → List Char
  ocr : List Nat → List Char

/-- The evolving state of one `inline_images` call: the two per-capture
caches, the collected summaries, the rewritten elements, and
instrumentation traces of the fetch and OCR invocations (by image URL). -/
structure InlineImagesState where
  cachedData : List (List Char × List Char)
  cachedSummaries : List (List Char × ImageSummary)
  summaries : List ImageSummary
  outImgs : List ImgTag
  fetchTrace : List (List Char)
  ocrTrace : List (List Char)

/-- Dictionary lookup (insertion at the back, first match wins; keys are
never inserted twice). -/
def alookup {α : Type} (key : List Char) : List (List Char × α) → Option α
  | [] => none
  | (k, v) :: rest => if k = key then some v else alookup key rest

/-- `f"data:{content_type};base64,{encoded}"`. -/
def dataUriFor (contentType encoded : List Char) : List Char :=
  "data:".data ++ contentType ++ ";base64,".data ++ encoded

/-- Python `X or ""` on an optional string. -/
def pyOrD (a : Option (List Char)) (d : List Char) : List Char :=
  if pyTruthy a then a.getD [] else d

/-- Lines 421-443 of the loop body: build the per-element summary (with the
dead fallback when no cached summary exists), append it, and rewrite the
element's `src`, `srcset` and `data-source`. -/
def finishImg (st : InlineImagesState) (img : ImgTag)
    (image_url data_uri : List Char) (cached_summary : Option ImageSummary) :
    InlineImagesState :=
  let cached_summary :=
    match cached_summary with
    | some s => s
    | none =>
      { source_url := image_url, alt_text := img.alt, ocr_text := none,
        description := build_image_description img.alt [] }
  let alt_text := pyOr img.alt cached_summary.alt_text
  let ocr_text := pyOrD cached_summary.ocr_text []
  let summary_for_instance : ImageSummary :=
    { source_url := image_url, alt_text := alt_text,
      ocr_text := cached_summary.ocr_text,
      description := build_image_description alt_text ocr_text }
  let img2 : ImgTag :=
    { img with src := some data_uri, srcset := none,
               dataSource := some image_url }
  { st with
      summaries := st.summaries ++ [summary_for_instance],
      outImgs := st.outImgs ++ [img2] }

/-- The `ImageSummary` cached after a successful fetch: alt text from the
element, OCR text (`None` when empty), and the composed description. -/
def mkFetchedSummary (env : ImgEnv) (img : ImgTag) (image_url : List Char)
    (data : List Nat) : ImageSummary :=
  { source_url := image_url, alt_text := img.alt,
    ocr_text := if env.ocr data ≠ [] then some (env.ocr data) else none,
    description := build_image_description img.alt (env.ocr data) }

/-- One iteration of the `inline_images` loop: skip elements without a
truthy non-data `src`; on a cache hit reuse the data URI and summary; on a
miss fetch (recorded in `fetchTrace`), skip non-fatally on failure, and on
success OCR (recorded in `ocrTrace`), cache, and proceed. -/
def processImg (env : ImgEnv) (st : InlineImagesState) (img : ImgTag) :
    InlineImagesState :=
  match img.src with
  | none => { st with outImgs := st.outImgs ++ [img] }
  | some src =>
    if src = [] ∨ ("data:".data).isPrefixOf src then
      { st with outImgs := st.outImgs ++ [img] }
    else
      match alookup (env.resolve src) st.cachedData with
      | some data_uri =>
        finishImg st img (env.resolve src) data_uri
          (alookup (env.resolve src) st.cachedSummaries)
      | none =>
        match fetch_binary_asset env.client env.guess (env.resolve src) with
        | Except.error _ =>
          { st with
              fetchTrace := st.fetchTrace ++ [env.resolve src],
              outImgs := st.outImgs ++ [img] }
        | Except.ok (data, content_type) =>
          finishImg
            { st with
                cachedData := st.cachedData ++
                  [(env.resolve src, dataUriFor content_type (env.b64 data))],
                cachedSummaries := st.cachedSummaries ++
                  [(env.resolve src, mkFetchedSummary env img (env.resolve src) data)],
                fetchTrace := st.fetchTrace ++ [env.resolve src],
                ocrTrace := st.ocrTrace ++ [env.resolve src] }
            img (env.resolve src) (dataUriFor content_type (env.b64 data))
            (some (mkFetchedSummary env img (env.resolve src) data))

/-- The empty per-capture state. -/
def initImagesState : InlineImagesState where
  cachedData := []
  cachedSummaries := []
  summaries := []
  outImgs := []
  fetchTrace := []
  ocrTrace := []

/-- `inline_images(soup, client, base_url)`: fold the loop body over the
`<img>` elements of the document. -/
def inline_images (env : ImgEnv) (imgs : List ImgTag) : InlineImagesState :=
  imgs.foldl (processImg env) initImagesState

/-- Whether fetching `url` as a binary asset succeeds in this environment
(the environment is a pure function, so this is deterministic). -/
def fetchOk (env : ImgEnv) (url : List Char) : Bool :=
  (fetch_binary_asset env.client env.guess url).isOk

/-- Whether one `<img>` element contributes a summary: a truthy non-data
`src` whose resolved URL fetches successfully. -/
def imgContributes (env : ImgEnv) (img : ImgTag) : Bool :=
  match img.src with
  | none => false
  | some src =>
    ¬ (src = [] ∨ ("data:".data).isPrefixOf src) ∧ fetchOk env (env.resolve src)

lemma alookup_append {α : Type} (key k : List Char) (v : α)
    (l : List (List Char × α)) :
    alookup key (l ++ [(k, v)]) =
      match alookup key l with
      | some x => some x
      | none => if k = key then some v else none := by
  induction l with
  | nil => simp [alookup]
  | cons p rest ih =>
    obtain ⟨pk, pv⟩ := p
    by_cases h : pk = key <;> simp [alookup, h, ih]

lemma count_append_single (url k : List Char) (l : List (List Char)) :
    (l ++ [k]).count url = l.count url + (if k = url then 1 else 0) := by
  by_cases hk : k = url <;>
    simp [List.count_append, List.count_cons, List.count_nil, hk]

/-- The invariant tying the per-capture caches to the instrumentation
traces: cache domains agree, cached URLs fetched successfully, a URL that
fetches successfully is fetched at most once (and not yet if uncached), and
every URL is OCR'd at most once (not yet if unsummarised). -/
def CacheInv (env : ImgEnv) (st : InlineImagesState) : Prop :=
  ∀ url : List Char,
    ((alookup url st.cachedData).isSome ↔ (alookup url st.cachedSummaries).isSome) ∧
    ((alookup url st.cachedData).isSome → fetchOk env url = true) ∧
    (fetchOk env url = true → alookup url st.cachedData = none →
      st.fetchTrace.count url = 0) ∧
    (fetchOk env url = true → st.fetchTrace.count url ≤ 1) ∧
    (alookup url st.cachedSummaries = none → st.ocrTrace.count url = 0) ∧
    st.ocrTrace.count url ≤ 1

lemma finishImg_cachedData (st : InlineImagesState) (img : ImgTag)
    (u d : List Char) (cs : Option ImageSummary) :
    (finishImg st img u d cs).cachedData = st.cachedData := rfl

lemma finishImg_cachedSummaries (st : InlineImagesState) (img : ImgTag)
    (u d : List Char) (cs : Option ImageSummary) :
    (finishImg st img u d cs).cachedSummaries = st.cachedSummaries := rfl

lemma finishImg_fetchTrace (st : InlineImagesState) (img : ImgTag)
    (u d : List Char) (cs : Option ImageSummary) :
    (finishImg st img u d cs).fetchTrace = st.fetchTrace := rfl

lemma finishImg_ocrTrace (st : InlineImagesState) (img : ImgTag)
    (u d : List Char) (cs : Option ImageSummary) :
    (finishImg st img u d cs).ocrTrace = st.ocrTrace := rfl

lemma finishImg_summaries_length (st : InlineImagesState) (img : ImgTag)
    (u d : List Char) (cs : Option ImageSummary) :
    (finishImg st img u d cs).summaries.length = st.summaries.length + 1 := by
  unfold finishImg
  simp

lemma cacheInv_of_fields {env : ImgEnv} {st st2 : InlineImagesState}
    (hinv : CacheInv env st)
    (h1 : st2.cachedData = st.cachedData)
    (h2 : st2.cachedSummaries = st.cachedSummaries)
    (h3 : st2.fetchTrace = st.fetchTrace)
    (h4 : st2.ocrTrace = st.ocrTrace) : CacheInv env st2 := by
  intro url
  rw [h1, h2, h3, h4]
  exact hinv url

lemma alookup_append_ne {α : Type} {key k : List Char} (hne : ¬ k = key) (v : α)
    (l : List (List Char × α)) :
    alookup key (l ++ [(k, v)]) = alookup key l := by
  rw [alookup_append]
  cases alookup key l with
  | some x => rfl
  | none => simp [hne]

lemma alookup_append_self {α : Type} {key : List Char} (v : α)
    (l : List (List Char × α)) (h : alookup key l = none) :
    alookup key (l ++ [(key, v)]) = some v := by
  rw [alookup_append, h]
  simp

lemma fetchOk_false_of_error {env : ImgEnv} {u : List Char} {e : FetchError}
    (h : fetch_binary_asset env.client env.guess u = Except.error e) :
    fetchOk env u = false := by
  unfold fetchOk
  rw [h]
  rfl

lemma fetchOk_true_of_ok {env : ImgEnv} {u : List Char}
    {v : List Nat × List Char}
    (h : fetch_binary_asset env.client env.guess u = Except.ok v) :
    fetchOk env u = true := by
  unfold fetchOk
  rw [h]
  rfl

lemma processImg_inv {env : ImgEnv} {st : InlineImagesState} (img : ImgTag)
    (hinv : CacheInv env st) : CacheInv env (processImg env st img) := by
  unfold processImg
  cases hsrc : img.src with
  | none => exact cacheInv_of_fields hinv rfl rfl rfl rfl
  | some src =>
    dsimp only
    by_cases hskip : src = [] ∨ ("data:".data).isPrefixOf src
    · rw [if_pos hskip]
      exact cacheInv_of_fields hinv rfl rfl rfl rfl
    · rw [if_neg hskip]
      cases hhit : alookup (env.resolve src) st.cachedData with
      | some data_uri => exact cacheInv_of_fields hinv rfl rfl rfl rfl
      | none =>
        cases hfetch : fetch_binary_asset env.client env.guess (env.resolve src) with
        | error e =>
          intro url
          obtain ⟨h1, h2, h3, h4, h5, h6⟩ := hinv url
          have hnotok := fetchOk_false_of_error hfetch
          refine ⟨h1, h2, ?_, ?_, h5, h6⟩
          · intro hok hnone
            have hne : ¬ (env.resolve src = url) := by
              intro he
              rw [he, hok] at hnotok
              cases hnotok
            show (st.fetchTrace ++ [env.resolve src]).count url = 0
            rw [count_append_single, if_neg hne, h3 hok hnone]
          · intro hok
            have hne : ¬ (env.resolve src = url) := by
              intro he
              rw [he, hok] at hnotok
              cases hnotok
            show (st.fetchTrace ++ [env.resolve src]).count url ≤ 1
            rw [count_append_single, if_neg hne]
            simpa using h4 hok
        | ok v =>
          obtain ⟨data, content_type⟩ := v
          have hok' := fetchOk_true_of_ok hfetch
          have hsum : alookup (env.resolve src) st.cachedSummaries = none := by
            cases hcs : alookup (env.resolve src) st.cachedSummaries with
            | none => rfl
            | some s =>
              exfalso
              have g1 := (hinv (env.resolve src)).1
              rw [hhit, hcs] at g1
              simp at g1
          intro url
          obtain ⟨h1, h2, h3, h4, h5, h6⟩ := hinv url
          by_cases hu : env.resolve src = url
          · subst hu
            refine ⟨?_, ?_, ?_, ?_, ?_, ?_⟩
            · show (alookup (env.resolve src) (st.cachedData ++
                  [(env.resolve src, dataUriFor content_type (env.b64 data))])).isSome ↔
                (alookup (env.resolve src) (st.cachedSummaries ++
                  [(env.resolve src, mkFetchedSummary env img (env.resolve src) data)])).isSome
              rw [alookup_append_self _ _ hhit, alookup_append_self _ _ hsum]
              simp
            · intro _
              exact hok'
            · intro hok hnone
              rw [show (finishImg { st with
                    cachedData := st.cachedData ++
                      [(env.resolve src, dataUriFor content_type (env.b64 data))],
                    cachedSummaries := st.cachedSummaries ++
                      [(env.resolve src, mkFetchedSummary env img (env.resolve src) data)],
                    fetchTrace := st.fetchTrace ++ [env.resolve src],
                    ocrTrace := st.ocrTrace ++ [env.resolve src] }
                  img (env.resolve src) (dataUriFor content_type (env.b64 data))
                  (some (mkFetchedSummary env img (env.resolve src) data))).cachedData
                  = st.cachedData ++
                    [(env.resolve src, dataUriFor content_type (env.b64 data))]
                from rfl] at hnone
              rw [alookup_append_self _ _ hhit] at hnone
              cases hnone
            · intro _
              show (st.fetchTrace ++ [env.resolve src]).count (env.resolve src) ≤ 1
              rw [count_append_single, if_pos rfl, h3 hok' hhit]
            · intro hn
              rw [show (finishImg { st with
                    cachedData := st.cachedData ++
                      [(env.resolve src, dataUriFor content_type (env.b64 data))],
                    cachedSummaries := st.cachedSummaries ++
                      [(env.resolve src, mkFetchedSummary env img (env.resolve src) data)],
                    fetchTrace := st.fetchTrace ++ [env.resolve src],
                    ocrTrace := st.ocrTrace ++ [env.resolve src] }
                  img (env.resolve src) (dataUriFor content_type (env.b64 data))
                  (some (mkFetchedSummary env img (env.resolve src) data))).cachedSummaries
                  = st.cachedSummaries ++
                    [(env.resolve src, mkFetchedSummary env img (env.resolve src) data)]
                from rfl] at hn
              rw [alookup_append_self _ _ hsum] at hn
              cases hn
            · show (st.ocrTrace ++ [env.resolve src]).count (env.resolve src) ≤ 1
              rw [count_append_single, if_pos rfl, h5 hsum]
          · refine ⟨?_, ?_, ?_, ?_, ?_, ?_⟩
            · show (alookup url (st.cachedData ++
                  [(env.resolve src, dataUriFor content_type (env.b64 data))])).isSome ↔
                (alookup url (st.cachedSummaries ++
                  [(env.resolve src, mkFetchedSummary env img (env.resolve src) data)])).isSome
              rw [alookup_append_ne hu, alookup_append_ne hu]
              exact h1
            · show (alookup url (st.cachedData ++
                  [(env.resolve src, dataUriFor content_type (env.b64 data))])).isSome →
                fetchOk env url = true
              rw [alookup_append_ne hu]
              exact h2
            · intro hok hnone
              show (st.fetchTrace ++ [env.resolve src]).count url = 0
              rw [show (finishImg { st with
                    cachedData := st.cachedData ++
                      [(env.resolve src, dataUriFor content_type (env.b64 data))],
                    cachedSummaries := st.cachedSummaries ++
                      [(env.resolve src, mkFetchedSummary env img (env.resolve src) data)],
                    fetchTrace := st.fetchTrace ++ [env.resolve src],
                    ocrTrace := st.ocrTrace ++ [env.resolve src] }
                  img (env.resolve src) (dataUriFor content_type (env.b64 data))
                  (some (mkFetchedSummary env img (env.resolve src) data))).cachedData
                  = st.cachedData ++
                    [(env.resolve src, dataUriFor content_type (env.b64 data))]
                from rfl] at hnone
              rw [alookup_append_ne hu] at hnone
              rw [count_append_single, if_neg hu, h3 hok hnone]
            · intro hok
              show (st.fetchTrace ++ [env.resolve src]).count url ≤ 1
              rw [count_append_single, if_neg hu]
              simpa using h4 hok
            · intro hn
              show (st.ocrTrace ++ [env.resolve src]).count url = 0
              rw [show (finishImg { st with
                    cachedData := st.cachedData ++
                      [(env.resolve src, dataUriFor content_type (env.b64 data))],
                    cachedSummaries := st.cachedSummaries ++
                      [(env.resolve src, mkFetchedSummary env img (env.resolve src) data)],
                    fetchTrace := st.fetchTrace ++ [env.resolve src],
                    ocrTrace := st.ocrTrace ++ [env.resolve src] }
                  img (env.resolve src) (dataUriFor content_type (env.b64 data))
                  (some (mkFetchedSummary env img (env.resolve src) data))).cachedSummaries
                  = st.cachedSummaries ++
                    [(env.resolve src, mkFetchedSummary env img (env.resolve src) data)]
                from rfl] at hn
              rw [alookup_append_ne hu] at hn
              rw [count_append_single, if_neg hu, h5 hn]
            · show (st.ocrTrace ++ [env.resolve src]).count url ≤ 1
              rw [count_append_single, if_neg hu]
              simpa using h6

lemma cacheInv_init (env : ImgEnv) : CacheInv env initImagesState := by
  intro url
  refine ⟨by simp [initImagesState, alookup], ?_, ?_, ?_, ?_, ?_⟩
  · intro h
    simp [initImagesState, alookup] at h
  · intro _ _
    simp [initImagesState]
  · intro _
    simp [initImagesState]
  · intro _
    simp [initImagesState]
  · simp [initImagesState]

lemma foldl_processImg_inv (env : ImgEnv) (imgs : List ImgTag)
    (st : InlineImagesState) (hinv : CacheInv env st) :
    CacheInv env (imgs.foldl (processImg env) st) := by
  induction imgs generalizing st with
  | nil => simpa using hinv
  | cons i rest ih =>
    simp only [List.foldl_cons]
    exact ih (processImg env st i) (processImg_inv i hinv)

/-- Claim C5 (amended): within one `inline_images` capture, every distinct
image URL is OCR'd at most once, and every distinct image URL whose binary
fetch succeeds is fetched at most once, however many elements reference it
(a URL whose fetch fails is retried once per referencing element, because
failures are not cached). -/
theorem inline_images_fetch_ocr_at_most_once (env : ImgEnv) (imgs : List ImgTag) :
    (∀ url : List Char, fetchOk env url = true →
      (inline_images env imgs).fetchTrace.count url ≤ 1) ∧
    (∀ url : List Char, (inline_images env imgs).ocrTrace.count url ≤ 1) := by
  have h := foldl_processImg_inv env imgs initImagesState (cacheInv_init env)
  exact ⟨fun url hok => (h url).2.2.2.1 hok, fun url => (h url).2.2.2.2.2⟩

/-- A concrete `<img>` element referencing URL `u`. -/
def imgU : ImgTag := { src := some ("u".data), alt := none }

/-- An environment whose client always fails. -/
def failEnv : ImgEnv where
  client := fun _ => Except.error FetchError.network
  resolve := id
  guess := fun _ => none
  b64 := fun _ => []
  ocr := fun _ => []

/-- An environment whose client always returns a small successful image
response. -/
def okEnv : ImgEnv where
  client := fun _ => Except.ok
    { ok := true, contentLength := none, contentType := some ("image/png".data),
      encoding := none, content := [0], text := [] }
  resolve := id
  guess := fun _ => none
  b64 := fun _ => []
  ocr := fun _ => []

/-- Claim C5 counterexample: with two references to the same image URL whose
fetch fails, the binary fetch is invoked twice for that one URL — the
at-most-once bound fails for URLs whose fetch does not succeed. -/
theorem inline_images_refetches_failed_url :
    (inline_images failEnv [imgU, imgU]).fetchTrace = ["u".data, "u".data] ∧
    ¬ ((inline_images failEnv [imgU, imgU]).fetchTrace.count ("u".data) ≤ 1) := by
  constructor
  · decide
  · decide

/-- Witness for C5's amended theorem at a concrete input: a URL that fetches
successfully and is referenced twice is fetched at most once. -/
theorem inline_images_fetch_ocr_at_most_once_witness :
    fetchOk okEnv ("u".data) = true ∧
    (inline_images okEnv [imgU, imgU]).fetchTrace.count ("u".data) ≤ 1 :=
  ⟨by decide,
   (inline_images_fetch_ocr_at_most_once okEnv [imgU, imgU]).1 ("u".data)
     (by decide)⟩

lemma processImg_summaries_length {env : ImgEnv} {st : InlineImagesState}
    (img : ImgTag) (hinv : CacheInv env st) :
    (processImg env st img).summaries.length =
      st.summaries.length + (if imgContributes env img then 1 else 0) := by
  unfold processImg imgContributes
  cases hsrc : img.src with
  | none => simp
  | some src =>
    dsimp only
    by_cases hskip : src = [] ∨ ("data:".data).isPrefixOf src
    · rw [if_pos hskip]
      rcases hskip with h | h
      · simp [h]
      · simp [List.isPrefixOf_iff_prefix.mp h]
    · rw [if_neg hskip]
      have hcond : ¬ src = [] ∧ ¬ ("data:".data) <+: src := by
        constructor
        · intro h
          exact hskip (Or.inl h)
        · intro h
          exact hskip (Or.inr (List.isPrefixOf_iff_prefix.mpr h))
      cases hhit : alookup (env.resolve src) st.cachedData with
      | some data_uri =>
        have hok : fetchOk env (env.resolve src) = true :=
          (hinv (env.resolve src)).2.1 (by rw [hhit]; rfl)
        rw [show (finishImg st img (env.resolve src) data_uri
            (alookup (env.resolve src) st.cachedSummaries)).summaries.length
            = st.summaries.length + 1 from finishImg_summaries_length ..]
        simp [hcond, hok]
      | none =>
        cases hfetch : fetch_binary_asset env.client env.guess (env.resolve src) with
        | error e =>
          have hnotok := fetchOk_false_of_error hfetch
          simp [hcond, hnotok]
        | ok v =>
          obtain ⟨data, content_type⟩ := v
          have hok := fetchOk_true_of_ok hfetch
          rw [show (finishImg { st with
                cachedData := st.cachedData ++
                  [(env.resolve src, dataUriFor content_type (env.b64 data))],
                cachedSummaries := st.cachedSummaries ++
                  [(env.resolve src, mkFetchedSummary env img (env.resolve src) data)],
                fetchTrace := st.fetchTrace ++ [env.resolve src],
                ocrTrace := st.ocrTrace ++ [env.resolve src] }
              img (env.resolve src) (dataUriFor content_type (env.b64 data))
              (some (mkFetchedSummary env img (env.resolve src) data))).summaries.length
              = st.summaries.length + 1 from finishImg_summaries_length ..]
          simp [hcond, hok]

lemma foldl_summaries_length (env : ImgEnv) (imgs : List ImgTag)
    (st : InlineImagesState) (hinv : CacheInv env st) :
    (imgs.foldl (processImg env) st).summaries.length =
      st.summaries.length +
        (imgs.filter (fun i => imgContributes env i)).length := by
  induction imgs generalizing st with
  | nil => simp
  | cons i rest ih =>
    simp only [List.foldl_cons, List.filter_cons]
    rw [ih (processImg env st i) (processImg_inv i hinv),
      processImg_summaries_length i hinv]
    by_cases hc : imgContributes env i = true
    · simp only [hc, if_true, List.length_cons]
      omega
    · have hc0 : imgContributes env i = false := by
        cases hcv : imgContributes env i
        · rfl
        · exact absurd hcv hc
      simp only [hc0, Bool.false_eq_true, if_false]
      omega

/-- Claim C8 (amended): one `ImageSummary` is appended per `<img>` element
whose `src` is truthy, not a data URI, and whose resolved URL fetches
successfully — i.e. one summary per referencing element, not one per
distinct URL. -/
theorem inline_images_one_summary_per_element (env : ImgEnv) (imgs : List ImgTag) :
    (inline_images env imgs).summaries.length =
      (imgs.filter (fun i => imgContributes env i)).length := by
  have h := foldl_summaries_length env imgs initImagesState (cacheInv_init env)
  simpa [initImagesState] using h

/-- Claim C8 counterexample: two `<img>` elements referencing the same
successfully fetched URL yield two `ImageSummary` entries with that source
URL, not exactly one. -/
theorem inline_images_summary_per_reference :
    ((inline_images okEnv [imgU, imgU]).summaries.map (fun s => s.source_url))
        = ["u".data, "u".data] ∧
    ¬ (((inline_images okEnv [imgU, imgU]).summaries.map
        (fun s => s.source_url)).count ("u".data) = 1) := by
  constructor
  · decide
  · decide

/-- The paragraph separator `"\n\n"`. -/
def parSep : List Char := ['\n', '\n']

/-- Python `text.split("\n\n")`: leftmost-first, non-overlapping split (a
separator is consumed whenever the next two characters are newlines). -/
def splitPar : List Char → List (List Char)
  | [] => [[]]
  | c :: rest =>
    if c = '\n' ∧ rest.head? = some '\n' then [] :: splitPar rest.tail
    else
      match splitPar rest with
      | [] => [[c]]
      | p :: ps => (c :: p) :: ps
termination_by s => s.length
decreasing_by
  · simp only [List.length_cons, List.length_tail]
    omega
  · simp only [List.length_cons]
    omega

/-- Join pieces back with a separator (inverse of a split). -/
def joinSep (sep : List Char) : List (List Char) → List Char
  | [] => []
  | [p] => p
  | p :: ps => p ++ sep ++ joinSep sep ps

/-- The pieces each prefixed by the separator (the tail of a join). -/
def prefSep (ps : List (List Char)) : List Char :=
  (ps.map (fun p => parSep ++ p)).flatten

/-- `for i in range(0, len(paragraph), limit): chunks.append(paragraph[i:i+limit])`:
hard-slice an oversized paragraph into `limit`-sized chunks. -/
def hardSlice (limit : Nat) (p : List Char) : List (List Char) :=
  if h : p = [] ∨ limit = 0 then []
  else p.take limit :: hardSlice limit (p.drop limit)
termination_by p.length
decreasing_by
  simp only [List.length_drop]
  rcases not_or.mp h with ⟨hp, hlim⟩
  have : 0 < p.length := List.length_pos.mpr hp
  omega

/-- `("\n\n" if current else "") + paragraph`. -/
def withSpacing (current : List (List Char)) (para : List Char) : List Char :=
  (if current ≠ [] then parSep else []) ++ para

/-- `if current: chunks.append("".join(current))`. -/
def flushChunks (chunks current : List (List Char)) : List (List Char) :=
  if current ≠ [] then chunks ++ [current.flatten] else chunks

/-- The paragraph-packing loop of `split_telegram_message` (lines 511-530):
pack paragraphs while the running length stays within `limit`, flush on
overflow, hard-slice paragraphs longer than `limit`. -/
def splitLoop (limit : Nat) :
    List (List Char) → List (List Char) → Nat → List (List Char) →
      List (List Char)
  | [], current, _currentLen, chunks => flushChunks chunks current
  | para :: rest, current, currentLen, chunks =>
    if currentLen + (withSpacing current para).length ≤ limit then
      splitLoop limit rest (current ++ [withSpacing current para])
        (currentLen + (withSpacing current para).length) chunks
    else if limit < para.length then
      splitLoop limit rest [] 0 (flushChunks chunks current ++ hardSlice limit para)
    else
      splitLoop limit rest [para] para.length (flushChunks chunks current)

/-- `split_telegram_message(text, limit)`: texts within the limit are
returned whole; longer texts are split on paragraph boundaries. -/
def split_telegram_message (text : List Char) (limit : Nat) : List (List Char) :=
  if text.length ≤ limit then [text]
  else splitLoop limit (splitPar text) [] 0 []

/-- `chunks` reassemble `text`: concatenating the chunks in order, putting
back a `"\n\n"` separator at some chunk boundaries (exactly the ones the
splitter dropped), yields `text`. -/
inductive Reassembles : List (List Char) → List Char → Prop where
  | nil : Reassembles [] []
  | single (c : List Char) : Reassembles [c] c
  | consSep (c : List Char) {cs : List (List Char)} {t : List Char} :
      Reassembles cs t → Reassembles (c :: cs) (c ++ parSep ++ t)
  | consNoSep (c : List Char) {cs : List (List Char)} {t : List Char} :
      Reassembles cs t → Reassembles (c :: cs) (c ++ t)

lemma splitPar_nil : splitPar [] = [[]] := by
  conv_lhs => unfold splitPar

lemma splitPar_cons_sep (c : Char) (rest : List Char)
    (h : c = '\n' ∧ rest.head? = some '\n') :
    splitPar (c :: rest) = [] :: splitPar rest.tail := by
  conv_lhs => unfold splitPar
  rw [if_pos h]

lemma splitPar_cons (c : Char) (rest : List Char)
    (h : ¬ (c = '\n' ∧ rest.head? = some '\n')) :
    splitPar (c :: rest) =
      match splitPar rest with
      | [] => [[c]]
      | p :: ps => (c :: p) :: ps := by
  conv_lhs => unfold splitPar
  rw [if_neg h]

lemma splitPar_ne_nil (s : List Char) : splitPar s ≠ [] := by
  induction s using splitPar.induct with
  | case1 => simp [splitPar_nil]
  | case2 c rest h ih => simp [splitPar_cons_sep c rest h]
  | case3 c rest h heq ih =>
    rw [splitPar_cons c rest h, heq]
    simp
  | case4 c rest h p ps heq ih =>
    rw [splitPar_cons c rest h, heq]
    simp

lemma joinSep_cons (sep p q : List Char) (qs : List (List Char)) :
    joinSep sep (p :: q :: qs) = p ++ sep ++ joinSep sep (q :: qs) := rfl

lemma prefSep_cons (p : List Char) (ps : List (List Char)) :
    prefSep (p :: ps) = parSep ++ p ++ prefSep ps := by
  simp [prefSep]

lemma joinSep_eq_prefSep (p : List Char) (ps : List (List Char)) :
    joinSep parSep (p :: ps) = p ++ prefSep ps := by
  induction ps generalizing p with
  | nil => simp [joinSep, prefSep]
  | cons q qs ih =>
    rw [joinSep_cons, ih q, prefSep_cons]
    simp [List.append_assoc]

lemma prefSep_eq_joinSep {ps : List (List Char)} (h : ps ≠ []) :
    prefSep ps = parSep ++ joinSep parSep ps := by
  cases ps with
  | nil => exact absurd rfl h
  | cons q qs =>
    rw [joinSep_eq_prefSep, prefSep_cons]
    simp [List.append_assoc]

lemma joinSep_splitPar (s : List Char) : joinSep parSep (splitPar s) = s := by
  induction s using splitPar.induct with
  | case1 =>
    rw [splitPar_nil]
    rfl
  | case2 c rest h ih =>
    rw [splitPar_cons_sep c rest h]
    obtain ⟨hc, hh⟩ := h
    cases hl : splitPar rest.tail with
    | nil => exact absurd hl (splitPar_ne_nil _)
    | cons p ps =>
      rw [← hl]
      rw [show joinSep parSep ([] :: splitPar rest.tail)
          = [] ++ prefSep (splitPar rest.tail) from joinSep_eq_prefSep _ _]
      rw [prefSep_eq_joinSep (splitPar_ne_nil _), ih]
      cases rest with
      | nil => simp at hh
      | cons r rs =>
        simp only [List.head?_cons, Option.some.injEq] at hh
        subst hc
        subst hh
        simp [parSep]
  | case3 c rest h heq ih => exact absurd heq (splitPar_ne_nil rest)
  | case4 c rest h p ps heq ih =>
    rw [splitPar_cons c rest h, heq]
    dsimp only
    rw [joinSep_eq_prefSep]
    have hrest : p ++ prefSep ps = rest := by
      rw [← joinSep_eq_prefSep]
      rw [heq] at ih
      exact ih
    rw [List.cons_append, hrest]

lemma hardSlice_nil (limit : Nat) : hardSlice limit [] = [] := by
  rw [hardSlice]
  simp

lemma hardSlice_eq (limit : Nat) (p : List Char) (hp : p ≠ []) (hlim : limit ≠ 0) :
    hardSlice limit p = p.take limit :: hardSlice limit (p.drop limit) := by
  rw [hardSlice]
  rw [dif_neg (by simp [hp, hlim])]

lemma hardSlice_spec (limit : Nat) (hl : 0 < limit) :
    ∀ (n : Nat) (p : List Char), p.length ≤ n → p ≠ [] →
      Reassembles (hardSlice limit p) p ∧
      (∀ (cs : List (List Char)) (t : List Char), Reassembles cs t →
        Reassembles (hardSlice limit p ++ cs) (p ++ parSep ++ t)) ∧
      (∀ c ∈ hardSlice limit p, c.length ≤ limit) ∧
      hardSlice limit p ≠ [] := by
  intro n
  induction n with
  | zero =>
    intro p hlen hp
    have : p = [] := List.length_eq_zero.mp (Nat.le_zero.mp hlen)
    exact absurd this hp
  | succ k ih =>
    intro p hlen hp
    have hlim : limit ≠ 0 := Nat.pos_iff_ne_zero.mp hl
    rw [hardSlice_eq limit p hp hlim]
    by_cases hdrop : p.drop limit = []
    · have hple : p.length ≤ limit := by
        have := List.drop_eq_nil_iff.mp hdrop
        omega
      have htake : p.take limit = p := List.take_of_length_le hple
      rw [hdrop, hardSlice_nil, htake]
      refine ⟨Reassembles.single p, ?_, ?_, by simp⟩
      · intro cs t h
        exact Reassembles.consSep p h
      · intro c hc
        simp at hc
        subst hc
        exact hple
    · have hdlen : (p.drop limit).length ≤ k := by
        have h0 : 0 < p.length := List.length_pos.mpr hp
        simp only [List.length_drop]
        omega
      obtain ⟨ra, rb, rc, rd⟩ := ih (p.drop limit) hdlen hdrop
      have hsplit : p.take limit ++ p.drop limit = p := List.take_append_drop limit p
      refine ⟨?_, ?_, ?_, by simp⟩
      · have := Reassembles.consNoSep (p.take limit) ra
        rwa [hsplit] at this
      · intro cs t h
        have h2 := Reassembles.consNoSep (p.take limit) (rb cs t h)
        have heq : p.take limit ++ (p.drop limit ++ parSep ++ t)
            = p ++ parSep ++ t := by
          conv_rhs => rw [← hsplit]
          simp only [List.append_assoc]
        rwa [heq] at h2
      · intro c hc
        rcases List.mem_cons.mp hc with hc | hc
        · subst hc
          exact List.length_take_le limit p
        · exact rc c hc

lemma hardSlice_reassembles (limit : Nat) (hl : 0 < limit) (p : List Char)
    (hp : p ≠ []) : Reassembles (hardSlice limit p) p :=
  (hardSlice_spec limit hl p.length p le_rfl hp).1

lemma hardSlice_reassembles_append (limit : Nat) (hl : 0 < limit) (p : List Char)
    (hp : p ≠ []) {cs : List (List Char)} {t : List Char}
    (h : Reassembles cs t) :
    Reassembles (hardSlice limit p ++ cs) (p ++ parSep ++ t) :=
  (hardSlice_spec limit hl p.length p le_rfl hp).2.1 cs t h

lemma hardSlice_mem_length (limit : Nat) (hl : 0 < limit) (p : List Char)
    (hp : p ≠ []) : ∀ c ∈ hardSlice limit p, c.length ≤ limit :=
  (hardSlice_spec limit hl p.length p le_rfl hp).2.2.1

lemma hardSlice_ne_nil (limit : Nat) (hl : 0 < limit) (p : List Char)
    (hp : p ≠ []) : hardSlice limit p ≠ [] :=
  (hardSlice_spec limit hl p.length p le_rfl hp).2.2.2

lemma splitLoop_nil (limit : Nat) (current : List (List Char))
    (currentLen : Nat) (chunks : List (List Char)) :
    splitLoop limit [] current currentLen chunks = flushChunks chunks current := rfl

lemma splitLoop_cons (limit : Nat) (para : List Char) (rest : List (List Char))
    (current : List (List Char)) (currentLen : Nat) (chunks : List (List Char)) :
    splitLoop limit (para :: rest) current currentLen chunks =
      if currentLen + (withSpacing current para).length ≤ limit then
        splitLoop limit rest (current ++ [withSpacing current para])
          (currentLen + (withSpacing current para).length) chunks
      else if limit < para.length then
        splitLoop limit rest [] 0
          (flushChunks chunks current ++ hardSlice limit para)
      else
        splitLoop limit rest [para] para.length (flushChunks chunks current) := rfl

lemma flushChunks_eq (chunks current : List (List Char)) :
    flushChunks chunks current = chunks ++ flushChunks [] current := by
  unfold flushChunks
  by_cases h : current ≠ [] <;> simp [h]

lemma flushChunks_mem_length {limit : Nat} {chunks current : List (List Char)}
    (hch : ∀ c ∈ chunks, c.length ≤ limit)
    (hcur : current.flatten.length ≤ limit) :
    ∀ c ∈ flushChunks chunks current, c.length ≤ limit := by
  intro c hc
  unfold flushChunks at hc
  by_cases h : current ≠ []
  · rw [if_pos h] at hc
    rcases List.mem_append.mp hc with h1 | h1
    · exact hch c h1
    · simp at h1
      subst h1
      exact hcur
  · rw [if_neg h] at hc
    exact hch c hc

lemma splitLoop_append (limit : Nat) (ps : List (List Char)) :
    ∀ (current : List (List Char)) (currentLen : Nat) (chunks : List (List Char)),
      splitLoop limit ps current currentLen chunks =
        chunks ++ splitLoop limit ps current currentLen [] := by
  induction ps with
  | nil =>
    intro current currentLen chunks
    rw [splitLoop_nil, splitLoop_nil]
    exact flushChunks_eq chunks current
  | cons para rest ih =>
    intro current currentLen chunks
    rw [splitLoop_cons, splitLoop_cons]
    by_cases h1 : currentLen + (withSpacing current para).length ≤ limit
    · rw [if_pos h1, if_pos h1]
      exact ih _ _ chunks
    · rw [if_neg h1, if_neg h1]
      by_cases h2 : limit < para.length
      · rw [if_pos h2, if_pos h2]
        rw [ih _ _ (flushChunks chunks current ++ hardSlice limit para),
          ih _ _ (flushChunks [] current ++ hardSlice limit para),
          flushChunks_eq chunks current]
        simp [List.append_assoc]
      · rw [if_neg h2, if_neg h2]
        rw [ih _ _ (flushChunks chunks current),
          ih _ _ (flushChunks [] current),
          flushChunks_eq chunks current]
        simp [List.append_assoc]

lemma splitLoop_reassembles (limit : Nat) (hl : 0 < limit)
    (ps : List (List Char)) :
    ∀ current : List (List Char),
      Reassembles (splitLoop limit ps current current.flatten.length [])
        (if current = [] then joinSep parSep ps
         else current.flatten ++ prefSep ps) := by
  induction ps with
  | nil =>
    intro current
    rw [splitLoop_nil]
    by_cases hc : current = []
    · rw [if_pos hc]
      subst hc
      exact Reassembles.nil
    · rw [if_neg hc]
      have hf : flushChunks [] current = [current.flatten] := by
        simp [flushChunks, hc]
      rw [hf]
      have : current.flatten ++ prefSep [] = current.flatten := by
        simp [prefSep]
      rw [this]
      exact Reassembles.single _
  | cons para rest ih =>
    intro current
    rw [splitLoop_cons]
    by_cases h1 : current.flatten.length + (withSpacing current para).length ≤ limit
    · rw [if_pos h1]
      have halign : current.flatten.length + (withSpacing current para).length
          = (current ++ [withSpacing current para]).flatten.length := by
        simp [List.flatten_append]
      rw [halign]
      have hih := ih (current ++ [withSpacing current para])
      rw [if_neg (by simp)] at hih
      by_cases hc : current = []
      · rw [if_pos hc]
        subst hc
        rw [joinSep_eq_prefSep]
        simpa [withSpacing] using hih
      · rw [if_neg hc]
        have heqt : (current ++ [withSpacing current para]).flatten ++ prefSep rest
            = current.flatten ++ prefSep (para :: rest) := by
          rw [prefSep_cons]
          simp [withSpacing, hc, List.append_assoc]
        rw [← heqt]
        exact hih
    · rw [if_neg h1]
      by_cases h2 : limit < para.length
      · rw [if_pos h2]
        have hpne : para ≠ [] := by
          intro he
          rw [he] at h2
          simp at h2
        rw [splitLoop_append]
        have hT := ih []
        rw [if_pos rfl] at hT
        cases hrest : rest with
        | nil =>
          subst hrest
          have hTnil : splitLoop limit [] ([] : List (List Char)) 0 [] = [] := rfl
          by_cases hc : current = []
          · rw [if_pos hc]
            subst hc
            have hfe : flushChunks [] ([] : List (List Char)) = [] := rfl
            rw [hfe]
            have : joinSep parSep [para] = para := rfl
            rw [this]
            simpa [hTnil] using hardSlice_reassembles limit hl para hpne
          · rw [if_neg hc]
            have hf : flushChunks [] current = [current.flatten] := by
              simp [flushChunks, hc]
            rw [hf]
            have hres := Reassembles.consSep current.flatten
              (hardSlice_reassembles limit hl para hpne)
            have : current.flatten ++ prefSep [para]
                = current.flatten ++ parSep ++ para := by
              rw [prefSep_cons]
              simp [prefSep, List.append_assoc]
            rw [this]
            simpa [hTnil, List.append_assoc] using hres
        | cons q qs =>
          rw [← hrest]
          have hrne : rest ≠ [] := by
            rw [hrest]
            simp
          have hres := hardSlice_reassembles_append limit hl para hpne hT
          by_cases hc : current = []
          · rw [if_pos hc]
            subst hc
            have hfe : flushChunks [] ([] : List (List Char)) = [] := rfl
            rw [hfe]
            rw [joinSep_eq_prefSep, prefSep_eq_joinSep hrne]
            simpa [List.append_assoc] using hres
          · rw [if_neg hc]
            have hf : flushChunks [] current = [current.flatten] := by
              simp [flushChunks, hc]
            rw [hf]
            have hres2 := Reassembles.consSep current.flatten hres
            rw [prefSep_cons, prefSep_eq_joinSep hrne]
            simpa [List.append_assoc] using hres2
      · rw [if_neg h2]
        have hpar : para.length ≤ limit := Nat.not_lt.mp h2
        rw [splitLoop_append]
        have hih := ih [para]
        rw [if_neg (by simp)] at hih
        by_cases hc : current = []
        · exfalso
          subst hc
          simp [withSpacing] at h1
          omega
        · rw [if_neg hc]
          have hf : flushChunks [] current = [current.flatten] := by
            simp [flushChunks, hc]
          rw [hf]
          have hflat : ([para] : List (List Char)).flatten = para := by simp
          rw [hflat] at hih
          have hres := Reassembles.consSep current.flatten hih
          rw [prefSep_cons]
          simpa [List.append_assoc] using hres

lemma splitLoop_length_le (limit : Nat) (hl : 0 < limit)
    (ps : List (List Char)) :
    ∀ (current chunks : List (List Char)),
      current.flatten.length ≤ limit →
      (∀ c ∈ chunks, c.length ≤ limit) →
      ∀ c ∈ splitLoop limit ps current current.flatten.length chunks,
        c.length ≤ limit := by
  induction ps with
  | nil =>
    intro current chunks hcur hch c hc
    rw [splitLoop_nil] at hc
    exact flushChunks_mem_length hch hcur c hc
  | cons para rest ih =>
    intro current chunks hcur hch c hc
    rw [splitLoop_cons] at hc
    by_cases h1 : current.flatten.length + (withSpacing current para).length ≤ limit
    · rw [if_pos h1] at hc
      have halign : current.flatten.length + (withSpacing current para).length
          = (current ++ [withSpacing current para]).flatten.length := by
        simp [List.flatten_append]
      rw [halign] at hc
      exact ih _ chunks (by rw [← halign]; exact h1) hch c hc
    · rw [if_neg h1] at hc
      by_cases h2 : limit < para.length
      · rw [if_pos h2] at hc
        have hpne : para ≠ [] := by
          intro he
          rw [he] at h2
          simp at h2
        refine ih [] _ (by simp) ?_ c hc
        intro x hx
        rcases List.mem_append.mp hx with hx | hx
        · exact flushChunks_mem_length hch hcur x hx
        · exact hardSlice_mem_length limit hl para hpne x hx
      · rw [if_neg h2] at hc
        have hpar : para.length ≤ limit := Nat.not_lt.mp h2
        refine ih [para] _ (by simpa using hpar)
          (flushChunks_mem_length hch hcur) c ?_
        have halign2 : para.length = ([para] : List (List Char)).flatten.length := by
          simp
        rw [halign2] at hc
        exact hc

lemma splitLoop_ne_nil (limit : Nat) (hl : 0 < limit) (ps : List (List Char)) :
    ∀ (current : List (List Char)) (currentLen : Nat)
      (chunks : List (List Char)),
      (ps ≠ [] ∨ current ≠ [] ∨ chunks ≠ []) →
      splitLoop limit ps current currentLen chunks ≠ [] := by
  induction ps with
  | nil =>
    intro current currentLen chunks hdisj
    rw [splitLoop_nil]
    unfold flushChunks
    by_cases h : current ≠ []
    · rw [if_pos h]
      simp
    · rw [if_neg h]
      rcases hdisj with h1 | h1 | h1
      · exact absurd rfl h1
      · contradiction
      · exact h1
  | cons para rest ih =>
    intro current currentLen chunks hdisj
    rw [splitLoop_cons]
    by_cases h1 : currentLen + (withSpacing current para).length ≤ limit
    · rw [if_pos h1]
      exact ih _ _ _ (Or.inr (Or.inl (by simp)))
    · rw [if_neg h1]
      by_cases h2 : limit < para.length
      · rw [if_pos h2]
        have hpne : para ≠ [] := by
          intro he
          rw [he] at h2
          simp at h2
        refine ih _ _ _ (Or.inr (Or.inr ?_))
        have := hardSlice_ne_nil limit hl para hpne
        simp [List.append_eq_nil, this]
      · rw [if_neg h2]
        exact ih _ _ _ (Or.inr (Or.inl (by simp)))

/-- Claim C2: for every text and positive limit, every segment returned by
`split_telegram_message` has length at most `limit`, and the segments, in
order, reassemble the original text exactly — concatenating them while
reinserting the `"\n\n"` separators dropped at some segment boundaries
yields `text`, so no content is dropped and order is preserved. -/
theorem split_telegram_message_spec (text : List Char) (limit : Nat)
    (hl : 0 < limit) :
    (∀ c ∈ split_telegram_message text limit, c.length ≤ limit) ∧
    Reassembles (split_telegram_message text limit) text := by
  unfold split_telegram_message
  by_cases h : text.length ≤ limit
  · rw [if_pos h]
    constructor
    · intro c hc
      simp at hc
      subst hc
      exact h
    · exact Reassembles.single text
  · rw [if_neg h]
    constructor
    · exact splitLoop_length_le limit hl (splitPar text) [] [] (by simp)
        (by simp)
    · have hre := splitLoop_reassembles limit hl (splitPar text) []
      rw [if_pos rfl] at hre
      rwa [joinSep_splitPar] at hre

/-- Witness for C2 at a concrete input: a text of two paragraphs split at
limit 3. -/
theorem split_telegram_message_spec_witness :
    (0 < 3) ∧
    ((∀ c ∈ split_telegram_message ("ab\n\ncd".data) 3, c.length ≤ 3) ∧
      Reassembles (split_telegram_message ("ab\n\ncd".data) 3)
        ("ab\n\ncd".data)) :=
  ⟨by decide, split_telegram_message_spec ("ab\n\ncd".data) 3 (by decide)⟩

/-- Claim C10: for every positive limit the splitter returns a non-empty
list, and any text within the limit (the empty string included) is returned
as the one-element list `[text]`, so the caller's `parts.pop(0)` is safe. -/
theorem split_telegram_message_nonempty (text : List Char) (limit : Nat)
    (hl : 0 < limit) :
    split_telegram_message text limit ≠ [] ∧
    (text.length ≤ limit → split_telegram_message text limit = [text]) := by
  constructor
  · unfold split_telegram_message
    by_cases h : text.length ≤ limit
    · rw [if_pos h]
      simp
    · rw [if_neg h]
      exact splitLoop_ne_nil limit hl (splitPar text) [] 0 []
        (Or.inl (splitPar_ne_nil text))
  · intro h
    unfold split_telegram_message
    rw [if_pos h]

/-- Witness for C10 at concrete inputs: the empty string at limit 5. -/
theorem split_telegram_message_nonempty_witness :
    (0 < 5) ∧
    (split_telegram_message [] 5 ≠ [] ∧
      (([] : List Char).length ≤ 5 → split_telegram_message [] 5 = [[]])) :=
  ⟨by decide, split_telegram_message_nonempty [] 5 (by decide)⟩

/-- The shape of the model reply's `content` field as the source handles it:
missing, a plain string, or a list of parts with optional `text` fields. -/
inductive PyContent where
  | pnone
  | pstr (s : List Char)
  | plist (parts : List (Option (List Char)))
deriving DecidableEq

/-- The message object extracted from the completion response
(`data.get("choices", [{}])[0].get("message", {})`). -/
structure ModelMessage where
  content : PyContent
  reasoning_details : Option (List Char) := none
deriving DecidableEq

/-- The `PageAssets` dataclass. -/
structure PageAssets where
  html : List Char
  text : List Char
  final_url : List Char
  images : List ImageSummary
deriving DecidableEq

/-- Failures of `ask_minimax`: a transport/HTTP error from the completion
call, or an empty/missing model response (`RuntimeError`). -/
inductive AskError where
  | transport
  | emptyModelResponse
deriving DecidableEq

/-- `isinstance(content, list)` flattening followed by the Python truthiness
check: the usable response text. -/
def normalizeContent : PyContent → List Char
  | PyContent.pnone => []
  | PyContent.pstr s => s
  | PyContent.plist parts => (parts.map (fun p => p.getD [])).flatten

/-- `format_image_summaries_for_ai(images)` (the `OCR_AVAILABLE` global is a
parameter). -/
def format_image_summaries_for_ai (ocrAvailable : Bool)
    (images : List ImageSummary) : List Char :=
  if images = [] then
    "На странице отсутствуют изображения или они не были загружены.".data
  else
    joinSep parSep
      ((List.enumFrom 1 images).map (fun p =>
        joinSep ['\n'] (List.filterMap id [
          some ("Изображение ".data ++ (Nat.repr p.1).data ++ ": ".data ++
            p.2.source_url),
          if pyTruthy p.2.alt_text then
            some ("Alt: ".data ++ p.2.alt_text.getD []) else none,
          if pyTruthy p.2.ocr_text then
            some ("Распознанный текст: ".data ++ p.2.ocr_text.getD []) else none,
          some ("Описание: ".data ++ p.2.description)])) ++
        (if ¬ ocrAvailable then
          ["OCR недоступен на сервере бота, поэтому текст на изображениях мог не распознаться.".data]
        else []))

/-- `_base_minimax_messages(user_state)`: copy of the cached history (with
the system message re-asserted) when present and non-empty, else just the
system message. -/
def base_minimax_messages (st : UserState) : List Msg :=
  match st.minimaxMessages with
  | some cached =>
    if cached ≠ [] then ensure_system_message cached else [systemMsg]
  | none => [systemMsg]

/-- The user message `ask_minimax` builds: final URL, truncated text,
truncated HTML, truncated image block, and the question. -/
def buildUserMessage (ocrAvailable : Bool) (question : List Char)
    (assets : PageAssets) : Msg where
  role := "user".data
  content :=
    "Адрес страницы: ".data ++ assets.final_url ++ parSep ++
    "Текст страницы (может быть сокращён):\n".data ++
      truncate_content assets.text MAX_TEXT_CONTEXT ++ parSep ++
    "HTML страницы (может быть сокращён):\n".data ++
      truncate_content assets.html MAX_HTML_CONTEXT ++ parSep ++
    "Описание изображений: ".data ++
      truncate_content (format_image_summaries_for_ai ocrAvailable assets.images)
        MAX_TEXT_CONTEXT ++ parSep ++
    "Вопрос пользователя: ".data ++ question

/-- `ask_minimax(question, assets, user_state)`: build the message sequence,
call the completion collaborator (`respond` models the POST, status check
and JSON extraction), reject empty/missing content, and only then record
the exchange in the session state.  The pair returns the outcome together
with the (possibly updated) session state. -/
def ask_minimax (respond : List Msg → Except Unit ModelMessage)
    (ocrAvailable : Bool) (question : List Char) (assets : PageAssets)
    (st : UserState) : Except AskError (List Char) × UserState :=
  match respond (base_minimax_messages st ++
      [buildUserMessage ocrAvailable question assets]) with
  | Except.error _ => (Except.error AskError.transport, st)
  | Except.ok message =>
    if normalizeContent message.content = [] then
      (Except.error AskError.emptyModelResponse, st)
    else
      (Except.ok (pyStrip (normalizeContent message.content)),
        store_minimax_exchange st (buildUserMessage ocrAvailable question assets)
          { role := "assistant".data,
            content := pyStrip (normalizeContent message.content),
            reasoningDetails := message.reasoning_details })

/-- Claim C9: when the model call fails — transport error or empty/missing
content (`EmptyModelResponse`) — the session state (stored history and
captured assets) is returned unchanged; the assets slot is never touched;
and the exchange is recorded (via `_store_minimax_exchange`) exactly when
the call succeeds with non-empty content. -/
theorem ask_minimax_failure_leaves_state
    (respond : List Msg → Except Unit ModelMessage) (ocrAvailable : Bool)
    (question : List Char) (assets : PageAssets) (st : UserState) :
    (∀ e, (ask_minimax respond ocrAvailable question assets st).1
        = Except.error e →
      (ask_minimax respond ocrAvailable question assets st).2 = st) ∧
    ((ask_minimax respond ocrAvailable question assets st).2.lastAssetsTag
      = st.lastAssetsTag) ∧
    (∀ ans, (ask_minimax respond ocrAvailable question assets st).1
        = Except.ok ans →
      ∃ a : Msg, a.content = ans ∧ a.role = "assistant".data ∧
        (ask_minimax respond ocrAvailable question assets st).2
          = store_minimax_exchange st
              (buildUserMessage ocrAvailable question assets) a) := by
  unfold ask_minimax
  cases hr : respond (base_minimax_messages st ++
      [buildUserMessage ocrAvailable question assets]) with
  | error e0 =>
    refine ⟨fun e _ => rfl, rfl, ?_⟩
    intro ans hans
    cases hans
  | ok message =>
    dsimp only
    by_cases hcont : normalizeContent message.content = []
    · rw [if_pos hcont]
      refine ⟨fun e _ => rfl, rfl, ?_⟩
      intro ans hans
      cases hans
    · rw [if_neg hcont]
      refine ⟨?_, ?_, ?_⟩
      · intro e he
        cases he
      · rfl
      · intro ans hans
        cases hans
        exact ⟨_, rfl, rfl, rfl⟩

/-- A concrete empty capture. -/
def emptyAssets : PageAssets := { html := [], text := [], final_url := [], images := [] }

/-- Witness for C9 at a concrete input: a transport failure leaves the
session state untouched. -/
theorem ask_minimax_failure_leaves_state_witness :
    (ask_minimax (fun _ => Except.error ()) true [] emptyAssets
        ⟨none, none⟩).1 = Except.error AskError.transport ∧
    (ask_minimax (fun _ => Except.error ()) true [] emptyAssets
        ⟨none, none⟩).2 = ⟨none, none⟩ :=
  ⟨rfl,
   (ask_minimax_failure_leaves_state (fun _ => Except.error ()) true []
      emptyAssets ⟨none, none⟩).1 AskError.transport rfl⟩
